import Mathlib

/-!
Verification of the K11 OMNI log/metrics pipeline: a shallow embedding of the
structured event log (ring buffer + lifetime counters + listener notification),
the request-statistics aggregator, and the SSE fan-out, together with theorems
about their behaviour.
-/

/-- Log severity level: debug | info | warn | error | critical. -/
inductive Level where
  | debug
  | info
  | warn
  | error
  | critical
  deriving DecidableEq, Repr

/-- One structured log entry as constructed by K11Logger._write.
The nondeterministic parts (id, timestamp, uptime) are carried as plain data. -/
structure LogEntry where
  id      : String
  ts      : String
  level   : Level
  module  : String
  message : String
  meta    : Option String
  uptime  : Nat
  deriving DecidableEq, Repr

/-- The per-level lifetime counters of the logger (this._stats). -/
structure LevelCounts where
  debug    : Nat
  info     : Nat
  warn     : Nat
  error    : Nat
  critical : Nat
  deriving DecidableEq, Repr

/-- Zeroed counters, as set in the K11Logger constructor. -/
def zeroCounts : LevelCounts :=
  { debug := 0, info := 0, warn := 0, error := 0, critical := 0 }

/-- this._stats[level] = (this._stats[level] || 0) + 1 for one of the five levels. -/
def LevelCounts.bump (c : LevelCounts) : Level → LevelCounts
  | Level.debug    => { c with debug := c.debug + 1 }
  | Level.info     => { c with info := c.info + 1 }
  | Level.warn     => { c with warn := c.warn + 1 }
  | Level.error    => { c with error := c.error + 1 }
  | Level.critical => { c with critical := c.critical + 1 }

/-- In-memory state of the logger: the ring buffer and the lifetime counters. -/
structure LoggerState where
  buffer : List LogEntry
  counts : LevelCounts
  deriving DecidableEq, Repr

/-- Initial logger state (empty buffer, zero counters). -/
def initLogger : LoggerState := { buffer := [], counts := zeroCounts }

/-- Ring append from K11Logger._write:
this._buffer.push(entry); if (this._buffer.length > MAX_LINES) this._buffer.shift(). -/
def bufPush (maxLines : Nat) (buf : List LogEntry) (e : LogEntry) : List LogEntry :=
  let b := buf ++ [e]
  if maxLines < b.length then b.tail else b

/-- Entry construction in _write: module defaults to CORE when falsy (empty). -/
def mkEntry (id ts : String) (uptime : Nat) (level : Level) (module message : String)
    (meta : Option String) : LogEntry :=
  { id := id, ts := ts, level := level,
    module := if module = "" then "CORE" else module,
    message := message, meta := meta, uptime := uptime }

/-- The arguments of one _write call, with the clock-derived values made explicit. -/
structure WriteReq where
  id      : String
  ts      : String
  uptime  : Nat
  level   : Level
  module  : String
  message : String
  meta    : Option String
  deriving DecidableEq, Repr

/-- The entry a given _write call constructs. -/
def WriteReq.entry (r : WriteReq) : LogEntry :=
  mkEntry r.id r.ts r.uptime r.level r.module r.message r.meta

/-- The state effect of one _write call: bump the level counter, append to the ring. -/
def recordStep (maxLines : Nat) (st : LoggerState) (r : WriteReq) : LoggerState :=
  { counts := st.counts.bump r.level,
    buffer := bufPush maxLines st.buffer r.entry }

/-- Node EventEmitter emit semantics for the log event: listeners run in
registration order; a listener is modeled by whether it returns normally (true)
or throws (false) on the entry.  A throw aborts the loop and propagates.
Returns (number of listeners invoked, whether emit threw). -/
def emitRun : List (LogEntry → Bool) → LogEntry → Nat × Bool
  | [], _ => (0, false)
  | f :: rest, e =>
    if f e then
      let r := emitRun rest e
      (r.1 + 1, r.2)
    else (1, true)

/-- Embedding of K11Logger._write: increments the level counter, appends to the
ring buffer, then emits the new entry to the listeners (file append and console
output are external side effects with no bearing on the in-memory state).
Returns (new state, the entry, listeners invoked, whether the call threw). -/
def loggerWrite (maxLines : Nat) (listeners : List (LogEntry → Bool))
    (st : LoggerState) (r : WriteReq) : LoggerState × LogEntry × Nat × Bool :=
  let e := r.entry
  let st' : LoggerState :=
    { counts := st.counts.bump r.level, buffer := bufPush maxLines st.buffer e }
  let em := emitRun listeners e
  (st', e, em.1, em.2)

/-- JavaScript Array.prototype.slice applied as entries.slice(-limit).
For limit > 0 it keeps the last min(limit, length) elements; limit = 0 gives
slice(-0) = slice(0), the whole list; for limit < 0 it is slice(-limit) with a
positive start and drops the first (-limit) elements. -/
def jsSliceNeg (l : List LogEntry) (limit : Int) : List LogEntry :=
  if 0 < limit then l.drop (l.length - limit.toNat)
  else l.drop (-limit).toNat

/-- Embedding of K11Logger.getLogs: copy the buffer, filter by level and module
when given, then entries.slice(-limit).reverse(). The JS default limit is 200,
applied by the caller when the field is absent. -/
def getLogs (st : LoggerState) (lv : Option Level) (md : Option String)
    (limit : Int) : List LogEntry :=
  let entries := st.buffer
  let entries := match lv with
    | none => entries
    | some l => entries.filter (fun e => e.level == l)
  let entries := match md with
    | none => entries
    | some m => entries.filter (fun e => e.module == m)
  (jsSliceNeg entries limit).reverse

/-- The combined getLogs filter predicate (no filter means no restriction). -/
def matchOk (lv : Option Level) (md : Option String) (e : LogEntry) : Bool :=
  (match lv with | none => true | some l => e.level == l) &&
  (match md with | none => true | some m => e.module == m)

/-- The view returned by K11Logger.getStats (uptimeMs, a wall-clock value, is
omitted: no claim concerns it). -/
structure LogStatsView where
  debug      : Nat
  info       : Nat
  warn       : Nat
  error      : Nat
  critical   : Nat
  total      : Nat
  bufferSize : Nat
  deriving DecidableEq, Repr

/-- Embedding of K11Logger.getStats: spreads the lifetime counters, total is
Object.values(this._stats) summed, bufferSize is the ring occupancy. -/
def loggerGetStats (st : LoggerState) : LogStatsView :=
  { debug := st.counts.debug, info := st.counts.info, warn := st.counts.warn,
    error := st.counts.error, critical := st.counts.critical,
    total := st.counts.debug + st.counts.info + st.counts.warn +
             st.counts.error + st.counts.critical,
    bufferSize := st.buffer.length }

/-- JavaScript Math.round on a finite value: floor(x + 1/2) (half rounds up). -/
def jsRound (q : ℚ) : ℤ := ⌊q + 1/2⌋

/-- Per-route counters in stats.byRoute: { count, totalMs, errors }. -/
structure RouteStats where
  count   : Nat
  totalMs : ℚ
  errors  : Nat
  deriving DecidableEq, Repr

/-- The request tracker's module-level stats object (startTime omitted: it is a
wall-clock value no claim concerns). -/
structure TrackerStats where
  total        : Nat
  ok           : Nat
  errors4xx    : Nat
  errors5xx    : Nat
  slow         : Nat
  avgLatencyMs : ℤ
  byRoute      : List (String × RouteStats)
  deriving DecidableEq, Repr

/-- Initial tracker stats, as declared at module load. -/
def trackInit : TrackerStats :=
  { total := 0, ok := 0, errors4xx := 0, errors5xx := 0, slow := 0,
    avgLatencyMs := 0, byRoute := [] }

/-- SLOW_THRESHOLD_MS = 500. -/
def slowThresholdMs : ℚ := 500

/-- One step of the byRoute update: count++, totalMs += elapsedMs,
errors++ when status >= 400. -/
def bumpRoute (status : Nat) (elapsed : ℚ) (s : RouteStats) : RouteStats :=
  { count := s.count + 1, totalMs := s.totalMs + elapsed,
    errors := if 400 ≤ status then s.errors + 1 else s.errors }

/-- stats.byRoute[route] update: create { 0, 0, 0 } if the key is absent (a new
key is appended, preserving JS object insertion order), then bump it. -/
def updateByRoute (br : List (String × RouteStats)) (route : String)
    (status : Nat) (elapsed : ℚ) : List (String × RouteStats) :=
  match br with
  | [] => [(route, bumpRoute status elapsed { count := 0, totalMs := 0, errors := 0 })]
  | (k, s) :: rest =>
    if k = route then (k, bumpRoute status elapsed s) :: rest
    else (k, s) :: updateByRoute rest route status elapsed

/-- A log entry emitted by the request tracker through the logger wrappers:
level, module, message, and the meta payload fields it uses. -/
structure EmittedLog where
  level   : Level
  module  : String
  message : String
  ms      : ℤ
  status  : Option Nat
  deriving DecidableEq, Repr

/-- Embedding of the res.on finish handler in requestTracker: classify the
status, bump the counters, update the rolling average and the per-route stats,
and emit the slow-request warn entry or the 5xx error entry (the source uses an
if / else if chain between the two).  Returns the new stats and the list of
log entries fed to the Event Log by this completion. -/
def recordCompletion (st : TrackerStats) (method path : String) (status : Nat)
    (elapsed : ℚ) : TrackerStats × List EmittedLog :=
  let route := method ++ " " ++ path
  let total' := st.total + 1
  let st' : TrackerStats :=
    { total := total',
      errors5xx := if 500 ≤ status then st.errors5xx + 1 else st.errors5xx,
      errors4xx := if 500 ≤ status then st.errors4xx
                   else if 400 ≤ status then st.errors4xx + 1 else st.errors4xx,
      ok := if 500 ≤ status then st.ok
            else if 400 ≤ status then st.ok else st.ok + 1,
      slow := if slowThresholdMs < elapsed then st.slow + 1 else st.slow,
      avgLatencyMs :=
        jsRound (((st.avgLatencyMs : ℚ) * (st.total : ℚ) + elapsed) / ((total' : ℕ) : ℚ)),
      byRoute := updateByRoute st.byRoute route status elapsed }
  let logs : List EmittedLog :=
    if slowThresholdMs < elapsed then
      [{ level := Level.warn, module := "REQUEST", message := "Lento: " ++ route,
         ms := jsRound elapsed, status := some status }]
    else if 500 ≤ status then
      [{ level := Level.error, module := "REQUEST",
         message := "Erro " ++ toString status ++ ": " ++ route,
         ms := jsRound elapsed, status := none }]
    else []
  (st', logs)

/-- One completed request as seen by the finish handler. -/
structure CompletionReq where
  method  : String
  path    : String
  status  : Nat
  elapsed : ℚ
  deriving DecidableEq, Repr

/-- Feeding a sequence of completions to the tracker. -/
def trackRun (st : TrackerStats) : List CompletionReq → TrackerStats
  | [] => st
  | r :: rest => trackRun (recordCompletion st r.method r.path r.status r.elapsed).1 rest

/-- The sort relation of getStats: the comparator (a, b) => b.count - a.count
orders by descending count. -/
def countGE (a b : String × RouteStats) : Prop := b.2.count ≤ a.2.count

instance : DecidableRel countGE := fun a b => Nat.decLe b.2.count a.2.count

instance : IsTotal (String × RouteStats) countGE :=
  ⟨fun a b => (Nat.le_total b.2.count a.2.count).imp id id⟩

instance : IsTrans (String × RouteStats) countGE :=
  ⟨fun _ _ _ h1 h2 => Nat.le_trans h2 h1⟩

/-- One reported top route: { route, count, avgMs, errors }. -/
structure TopRoute where
  route  : String
  count  : Nat
  avgMs  : ℤ
  errors : Nat
  deriving DecidableEq, Repr

/-- Embedding of getStats's topRoutes: Object.entries(stats.byRoute) in key
insertion order, stable-sorted descending by count (Array.prototype.sort is
stable; a stable sort under this total transitive comparator has a unique
result, here computed by insertion sort), first 10, mapped to the report shape
with avgMs = Math.round(totalMs / count). -/
def topRoutes (br : List (String × RouteStats)) : List TopRoute :=
  ((br.insertionSort countGE).take 10).map
    (fun p => { route := p.1, count := p.2.count,
                avgMs := jsRound (p.2.totalMs / ((p.2.count : ℕ) : ℚ)),
                errors := p.2.errors })

/-- One connected SSE client for a single broadcast: an identity plus whether
res.write succeeds on this entry (false models a throwing write). -/
structure SSEClient where
  idNum   : Nat
  writeOk : Bool
  deriving DecidableEq, Repr

/-- Embedding of the logger.on log listener in the system routes: for each
client in _sseClients, try res.write(msg), and on a throw delete the client
from the set.  Returns (clients that received the entry, surviving set). -/
def sseBroadcast : List SSEClient → List SSEClient × List SSEClient
  | [] => ([], [])
  | c :: rest =>
    let r := sseBroadcast rest
    if c.writeOk then (c :: r.1, c :: r.2) else (r.1, r.2)

/-- Observable actions of the GET stream handler, in program order. -/
inductive StreamEvent where
  | ack
  | replayEntry (e : LogEntry)
  | addClient
  deriving DecidableEq, Repr

/-- Embedding of the GET stream route handler: write the connected
acknowledgement, then logger.getLogs({ limit: 50 }).reverse() replayed entry by
entry, then _sseClients.add(res). -/
def streamSubscribe (st : LoggerState) : List StreamEvent :=
  StreamEvent.ack ::
    ((getLogs st none none 50).reverse.map StreamEvent.replayEntry ++
      [StreamEvent.addClient])

/-- Ring append characterized as a drop: pushing onto a buffer within capacity
keeps the newest-capacity suffix of the extended list. -/
theorem bufPush_eq_drop (maxLines : Nat) (buf : List LogEntry) (e : LogEntry)
    (h : buf.length ≤ maxLines) :
    bufPush maxLines buf e = (buf ++ [e]).drop (buf.length + 1 - maxLines) := by
  unfold bufPush
  by_cases hc : maxLines < (buf ++ [e]).length
  · have h1 : buf.length + 1 - maxLines = 1 := by
      simp only [List.length_append, List.length_cons, List.length_nil] at hc
      omega
    rw [if_pos hc, h1, ← List.drop_one]
  · have h0 : buf.length + 1 - maxLines = 0 := by
      simp only [List.length_append, List.length_cons, List.length_nil] at hc
      omega
    rw [if_neg hc, h0, List.drop_zero]

/-- Folding the state effect of _write over a run of requests leaves exactly
the newest-capacity suffix of all inserted entries in the ring. -/
theorem foldl_recordStep_buffer (maxLines : Nat) (reqs : List WriteReq) :
    ∀ st : LoggerState, st.buffer.length ≤ maxLines →
      (reqs.foldl (recordStep maxLines) st).buffer =
        (st.buffer ++ reqs.map WriteReq.entry).drop
          (st.buffer.length + reqs.length - maxLines) := by
  induction reqs with
  | nil =>
    intro st h
    simp only [List.foldl_nil, List.map_nil, List.append_nil, List.length_nil, Nat.add_zero]
    have h0 : st.buffer.length - maxLines = 0 := by omega
    rw [h0, List.drop_zero]
  | cons r rest ih =>
    intro st h
    have hstep : (recordStep maxLines st r).buffer =
        (st.buffer ++ [r.entry]).drop (st.buffer.length + 1 - maxLines) :=
      bufPush_eq_drop maxLines st.buffer r.entry h
    have hlen : (recordStep maxLines st r).buffer.length ≤ maxLines := by
      rw [hstep]
      simp only [List.length_drop, List.length_append, List.length_cons, List.length_nil]
      omega
    have hih := ih (recordStep maxLines st r) hlen
    rw [List.foldl_cons, hih, hstep]
    have hd1 : st.buffer.length + 1 - maxLines ≤ (st.buffer ++ [r.entry]).length := by
      simp only [List.length_append, List.length_cons, List.length_nil]
      omega
    have hsplit : ((st.buffer ++ [r.entry]) ++ rest.map WriteReq.entry).drop
          (st.buffer.length + 1 - maxLines) =
        (st.buffer ++ [r.entry]).drop (st.buffer.length + 1 - maxLines) ++
          rest.map WriteReq.entry := by
      rw [List.drop_append_eq_append_drop]
      have h0 : st.buffer.length + 1 - maxLines - (st.buffer ++ [r.entry]).length = 0 := by
        simp only [List.length_append, List.length_cons, List.length_nil]
        omega
      rw [h0, List.drop_zero]
    rw [List.length_drop, ← hsplit, List.drop_drop]
    have hassoc : (st.buffer ++ [r.entry]) ++ rest.map WriteReq.entry =
        st.buffer ++ (r :: rest).map WriteReq.entry := by
      rw [List.append_assoc, List.map_cons, List.singleton_append]
    rw [hassoc]
    congr 1
    simp only [List.length_append, List.length_cons, List.length_nil]
    omega

/-- The lifetime counters of a run of _write calls do not depend on the ring. -/
theorem foldl_recordStep_counts (maxLines : Nat) (reqs : List WriteReq) :
    ∀ st : LoggerState,
      (reqs.foldl (recordStep maxLines) st).counts =
        reqs.foldl (fun c r => c.bump r.level) st.counts := by
  induction reqs with
  | nil => intro st; rfl
  | cons r rest ih =>
    intro st
    rw [List.foldl_cons, List.foldl_cons, ih]
    rfl

/-- Sum of the five per-level lifetime counters. -/
def LevelCounts.sum (c : LevelCounts) : Nat :=
  c.debug + c.info + c.warn + c.error + c.critical

/-- Each _write increments exactly one level counter. -/
theorem bump_sum (c : LevelCounts) (l : Level) : (c.bump l).sum = c.sum + 1 := by
  cases l <;> simp [LevelCounts.bump, LevelCounts.sum] <;> omega

/-- Total lifetime count after a run equals the starting total plus the number
of writes. -/
theorem foldl_bump_sum (reqs : List WriteReq) :
    ∀ c : LevelCounts,
      (reqs.foldl (fun c r => c.bump r.level) c).sum = c.sum + reqs.length := by
  induction reqs with
  | nil => intro c; simp
  | cons r rest ih =>
    intro c
    rw [List.foldl_cons, ih, bump_sum]
    simp only [List.length_cons]
    omega

/-- Bumping the counters touches the error counter exactly on error level. -/
theorem bump_error (c : LevelCounts) (l : Level) :
    (c.bump l).error = if l = Level.error then c.error + 1 else c.error := by
  cases l <;> simp [LevelCounts.bump]

/-- A run of error-level writes adds its length to the error lifetime counter. -/
theorem foldl_bump_error_all (reqs : List WriteReq)
    (hall : ∀ r ∈ reqs, r.level = Level.error) :
    ∀ c : LevelCounts,
      (reqs.foldl (fun c r => c.bump r.level) c).error = c.error + reqs.length := by
  induction reqs with
  | nil => intro c; simp
  | cons r rest ih =>
    intro c
    have hr : r.level = Level.error := hall r (List.mem_cons_self r rest)
    have hrest : ∀ x ∈ rest, x.level = Level.error := fun x hx =>
      hall x (List.mem_cons_of_mem r hx)
    rw [List.foldl_cons, ih hrest, bump_error, if_pos hr]
    simp only [List.length_cons]
    omega

/-- With no filters, getLogs is slice-then-reverse of the raw buffer. -/
theorem getLogs_none_none (st : LoggerState) (limit : Int) :
    getLogs st none none limit = (jsSliceNeg st.buffer limit).reverse := rfl

/-- C4: for every run of n _write calls with n exceeding the capacity, the ring
holds exactly maxLines entries (and query with limit maxLines returns exactly
maxLines entries), the buffer is the newest-capacity suffix of all inserted
entries, and the oldest surviving entry is the (n - maxLines + 1)-th inserted
(zero-based index n - maxLines): each append past capacity drops the oldest. -/
theorem ring_bound_evicts_oldest (maxLines : Nat) (reqs : List WriteReq)
    (hlen : maxLines < reqs.length) :
    (reqs.foldl (recordStep maxLines) initLogger).buffer =
        (reqs.map WriteReq.entry).drop (reqs.length - maxLines)
    ∧ (reqs.foldl (recordStep maxLines) initLogger).buffer.length = maxLines
    ∧ (getLogs (reqs.foldl (recordStep maxLines) initLogger) none none
        (maxLines : Int)).length = maxLines
    ∧ (reqs.foldl (recordStep maxLines) initLogger).buffer.head? =
        (reqs.map WriteReq.entry)[reqs.length - maxLines]? := by
  have hbuf := foldl_recordStep_buffer maxLines reqs initLogger (by simp [initLogger])
  have hb0 : initLogger.buffer = [] := rfl
  rw [hb0] at hbuf
  simp only [List.nil_append, List.length_nil, Nat.zero_add] at hbuf
  have hblen : (reqs.foldl (recordStep maxLines) initLogger).buffer.length = maxLines := by
    rw [hbuf, List.length_drop, List.length_map]
    omega
  refine ⟨hbuf, hblen, ?_, ?_⟩
  · rw [getLogs_none_none, List.length_reverse]
    unfold jsSliceNeg
    by_cases hpos : (0 : Int) < (maxLines : Int)
    · rw [if_pos hpos, List.length_drop, hblen, Int.toNat_natCast]
      omega
    · have hm0 : maxLines = 0 := by omega
      subst hm0
      rw [if_neg hpos]
      simp only [Nat.cast_zero, neg_zero, Int.toNat_zero, List.drop_zero]
      exact hblen
  · rw [hbuf, List.head?_drop]

/-- A concrete write request for witnesses. -/
def wreq (n : Nat) (lv : Level) : WriteReq :=
  { id := toString n, ts := "t0", uptime := 0, level := lv, module := "M",
    message := "m", meta := none }

/-- Witness for ring_bound_evicts_oldest: capacity 2, three writes leave 2
entries and the head of the ring is the second inserted entry. -/
theorem ring_bound_evicts_oldest_witness :
    2 < [wreq 1 Level.info, wreq 2 Level.info, wreq 3 Level.info].length ∧
    ([wreq 1 Level.info, wreq 2 Level.info, wreq 3 Level.info].foldl (recordStep 2)
        initLogger).buffer.length = 2 ∧
    ([wreq 1 Level.info, wreq 2 Level.info, wreq 3 Level.info].foldl (recordStep 2)
        initLogger).buffer.head? =
      ([wreq 1 Level.info, wreq 2 Level.info, wreq 3 Level.info].map
        WriteReq.entry)[[wreq 1 Level.info, wreq 2 Level.info,
          wreq 3 Level.info].length - 2]? :=
  ⟨by decide,
   (ring_bound_evicts_oldest 2 [wreq 1 Level.info, wreq 2 Level.info,
      wreq 3 Level.info] (by decide)).2.1,
   (ring_bound_evicts_oldest 2 [wreq 1 Level.info, wreq 2 Level.info,
      wreq 3 Level.info] (by decide)).2.2.2⟩

/-- C5: the per-level lifetime counters are unaffected by ring eviction: after
maxLines + k error-level writes the error counter reads maxLines + k while the
ring holds only maxLines entries; total equals the number of writes and equals
the sum of the per-level counters; bufferSize is the ring occupancy. -/
theorem lifetime_counts_survive_eviction (maxLines k : Nat) (reqs : List WriteReq)
    (hall : ∀ r ∈ reqs, r.level = Level.error) (hlen : reqs.length = maxLines + k) :
    (loggerGetStats (reqs.foldl (recordStep maxLines) initLogger)).error = maxLines + k
    ∧ (loggerGetStats (reqs.foldl (recordStep maxLines) initLogger)).total = maxLines + k
    ∧ (loggerGetStats (reqs.foldl (recordStep maxLines) initLogger)).total =
        (reqs.foldl (recordStep maxLines) initLogger).counts.sum
    ∧ (loggerGetStats (reqs.foldl (recordStep maxLines) initLogger)).bufferSize
        = maxLines := by
  have hc := foldl_recordStep_counts maxLines reqs initLogger
  have hc0 : initLogger.counts = zeroCounts := rfl
  rw [hc0] at hc
  have herr := foldl_bump_error_all reqs hall zeroCounts
  have hsum := foldl_bump_sum reqs zeroCounts
  have hz : zeroCounts.error = 0 := rfl
  have hzs : zeroCounts.sum = 0 := rfl
  have hbuf := foldl_recordStep_buffer maxLines reqs initLogger (by simp [initLogger])
  have hb0 : initLogger.buffer = [] := rfl
  rw [hb0] at hbuf
  simp only [List.nil_append, List.length_nil, Nat.zero_add] at hbuf
  refine ⟨?_, ?_, ?_, ?_⟩
  · show (reqs.foldl (recordStep maxLines) initLogger).counts.error = maxLines + k
    rw [hc, herr, hz, hlen]
    omega
  · show (reqs.foldl (recordStep maxLines) initLogger).counts.debug + _ + _ + _ + _
        = maxLines + k
    have : (reqs.foldl (recordStep maxLines) initLogger).counts.sum = maxLines + k := by
      rw [hc, hsum, hzs, hlen]
      omega
    unfold LevelCounts.sum at this
    exact this
  · rfl
  · show (reqs.foldl (recordStep maxLines) initLogger).buffer.length = maxLines
    rw [hbuf, List.length_drop, List.length_map, hlen]
    omega

/-- Witness for lifetime_counts_survive_eviction: capacity 2 plus one extra
error write gives an error lifetime count of 3. -/
theorem lifetime_counts_survive_eviction_witness :
    (∀ r ∈ [wreq 1 Level.error, wreq 2 Level.error, wreq 3 Level.error],
        r.level = Level.error) ∧
    [wreq 1 Level.error, wreq 2 Level.error, wreq 3 Level.error].length = 2 + 1 ∧
    (loggerGetStats ([wreq 1 Level.error, wreq 2 Level.error,
        wreq 3 Level.error].foldl (recordStep 2) initLogger)).error = 2 + 1 ∧
    (loggerGetStats ([wreq 1 Level.error, wreq 2 Level.error,
        wreq 3 Level.error].foldl (recordStep 2) initLogger)).bufferSize = 2 :=
  ⟨by decide, by decide,
   (lifetime_counts_survive_eviction 2 1 [wreq 1 Level.error, wreq 2 Level.error,
      wreq 3 Level.error] (by decide) (by decide)).1,
   (lifetime_counts_survive_eviction 2 1 [wreq 1 Level.error, wreq 2 Level.error,
      wreq 3 Level.error] (by decide) (by decide)).2.2.2⟩

/-- The combined predicate at absent filters accepts everything. -/
theorem matchOk_none_none : matchOk none none = fun _ : LogEntry => true := rfl

/-- The combined predicate with only a level filter. -/
theorem matchOk_some_none (l : Level) :
    matchOk (some l) none = fun e : LogEntry => e.level == l := by
  funext e
  simp [matchOk]

/-- The combined predicate with only a module filter. -/
theorem matchOk_none_some (m : String) :
    matchOk none (some m) = fun e : LogEntry => e.module == m := by
  funext e
  simp [matchOk]

/-- The combined predicate with both filters. -/
theorem matchOk_some_some (l : Level) (m : String) :
    matchOk (some l) (some m) =
      fun e : LogEntry => e.level == l && e.module == m := by
  funext e
  simp [matchOk]

/-- The two sequential getLogs filters collapse to the combined predicate. -/
theorem getLogs_eq_filter (st : LoggerState) (lv : Option Level) (md : Option String)
    (limit : Int) :
    getLogs st lv md limit =
      (jsSliceNeg (st.buffer.filter (matchOk lv md)) limit).reverse := by
  cases lv with
  | none =>
    cases md with
    | none =>
      rw [matchOk_none_none]
      simp [getLogs]
    | some m =>
      rw [matchOk_none_some]
      rfl
  | some l =>
    cases md with
    | none =>
      rw [matchOk_some_none]
      rfl
    | some m =>
      rw [matchOk_some_some]
      have hf : (st.buffer.filter (fun e => e.level == l)).filter
            (fun e => e.module == m) =
          st.buffer.filter (fun e => e.level == l && e.module == m) := by
        rw [List.filter_filter]
        exact List.filter_congr (fun x _ => Bool.and_comm _ _)
      simp only [getLogs, hf]

/-- The positive-limit branch of the slice. -/
theorem jsSliceNeg_pos (l : List LogEntry) (limit : Int) (h : 0 < limit) :
    jsSliceNeg l limit = l.drop (l.length - limit.toNat) := by
  unfold jsSliceNeg
  rw [if_pos h]

/-- C6 (amended to positive limits, including the default 200): getLogs returns
at most limit entries, every returned entry satisfies the provided equality
filters, and the result is the reverse of a suffix of the chronologically
ordered filtered buffer of length min(limit, matches): the most recent matching
entries, newest-first. -/
theorem query_filter_limit_newest_first (st : LoggerState) (lv : Option Level)
    (md : Option String) (limit : Int) (hpos : 0 < limit) :
    (getLogs st lv md limit).length ≤ limit.toNat
    ∧ (∀ e ∈ getLogs st lv md limit, matchOk lv md e = true)
    ∧ (∃ pre, pre ++ (getLogs st lv md limit).reverse =
        st.buffer.filter (matchOk lv md))
    ∧ (getLogs st lv md limit).length =
        min limit.toNat (st.buffer.filter (matchOk lv md)).length := by
  rw [getLogs_eq_filter, jsSliceNeg_pos _ _ hpos]
  refine ⟨?_, ?_, ?_, ?_⟩
  · rw [List.length_reverse, List.length_drop]
    omega
  · intro e he
    rw [List.mem_reverse] at he
    have hm := List.mem_of_mem_drop he
    exact (List.mem_filter.mp hm).2
  · refine ⟨(st.buffer.filter (matchOk lv md)).take
      ((st.buffer.filter (matchOk lv md)).length - limit.toNat), ?_⟩
    rw [List.reverse_reverse, List.take_append_drop]
  · rw [List.length_reverse, List.length_drop]
    omega

/-- A concrete entry and buffer used by witnesses and counterexamples. -/
def entA : LogEntry :=
  { id := "a", ts := "t1", level := Level.info, module := "CORE",
    message := "A", meta := none, uptime := 0 }

/-- A second concrete entry, recorded after entA. -/
def entB : LogEntry :=
  { id := "b", ts := "t2", level := Level.error, module := "CORE",
    message := "B", meta := none, uptime := 1 }

/-- A concrete logger state whose ring holds entA then entB. -/
def stAB : LoggerState := { buffer := [entA, entB], counts := zeroCounts }

/-- Witness for query_filter_limit_newest_first at limit 1 on a two-entry buffer. -/
theorem query_filter_limit_newest_first_witness :
    (0 : Int) < 1
    ∧ (getLogs stAB none none 1).length ≤ (1 : Int).toNat
    ∧ (getLogs stAB none none 1).length =
        min (1 : Int).toNat (stAB.buffer.filter (matchOk none none)).length :=
  ⟨by decide,
   (query_filter_limit_newest_first stAB none none 1 (by decide)).1,
   (query_filter_limit_newest_first stAB none none 1 (by decide)).2.2.2⟩

/-- The claim fails as stated: with limit = 0 getLogs returns every matching
entry (here two) instead of at most zero. -/
theorem query_limit_zero_cex :
    ¬ ((getLogs stAB none none 0).length ≤ (0 : Int).toNat) := by decide

/-- C10: limit = 0 returns every matching buffered entry, newest-first
(slice(-0) is slice(0)); a negative limit -k returns all matching entries
except the k oldest, newest-first (slice(-limit) has a positive start index). -/
theorem query_limit_zero_and_negative (st : LoggerState) (lv : Option Level)
    (md : Option String) (k : Nat) :
    getLogs st lv md 0 = (st.buffer.filter (matchOk lv md)).reverse
    ∧ getLogs st lv md (-(k : Int)) =
        ((st.buffer.filter (matchOk lv md)).drop k).reverse := by
  constructor
  · rw [getLogs_eq_filter]
    simp [jsSliceNeg]
  · rw [getLogs_eq_filter]
    unfold jsSliceNeg
    rw [if_neg (by omega), neg_neg, Int.toNat_natCast]

/-- The claim fails as stated on the code: a request with status 500 and
elapsedMs 600 (> 500, so also slow) emits only the warn-level slow entry; no
error-level entry is produced, because the source chains the two emissions
with else-if. -/
theorem status5xx_always_logs_error_cex :
    (recordCompletion trackInit "GET" "/x" 500 600).2 =
      [{ level := Level.warn, module := "REQUEST", message := "Lento: GET /x",
         ms := jsRound 600, status := some 500 }] := by
  simp only [recordCompletion]
  rw [if_pos (show slowThresholdMs < 600 by norm_num [slowThresholdMs])]
  norm_num
  decide

/-- C1 (amended): a slow request (elapsedMs > 500) emits exactly the warn-level
slow-request entry, even when status >= 500 (the else-if chain suppresses the
error entry in that case); a status >= 500 request emits the error-level entry
only when it is not slow; otherwise no entry is emitted. -/
theorem completion_log_levels (st : TrackerStats) (method path : String)
    (status : Nat) (elapsed : ℚ) :
    (slowThresholdMs < elapsed →
      (recordCompletion st method path status elapsed).2 =
        [{ level := Level.warn, module := "REQUEST",
           message := "Lento: " ++ (method ++ " " ++ path),
           ms := jsRound elapsed, status := some status }])
    ∧ (¬ slowThresholdMs < elapsed → 500 ≤ status →
      (recordCompletion st method path status elapsed).2 =
        [{ level := Level.error, module := "REQUEST",
           message := "Erro " ++ toString status ++ ": " ++ (method ++ " " ++ path),
           ms := jsRound elapsed, status := none }])
    ∧ (¬ slowThresholdMs < elapsed → status < 500 →
      (recordCompletion st method path status elapsed).2 = []) := by
  refine ⟨?_, ?_, ?_⟩
  · intro h
    simp only [recordCompletion]
    rw [if_pos h]
  · intro h h5
    simp only [recordCompletion]
    rw [if_neg h, if_pos h5]
  · intro h h5
    simp only [recordCompletion]
    rw [if_neg h, if_neg (by omega)]

/-- Witness for completion_log_levels: a non-slow 502 emits the error entry. -/
theorem completion_log_levels_witness :
    ¬ slowThresholdMs < (100 : ℚ)
    ∧ 500 ≤ 502
    ∧ (recordCompletion trackInit "GET" "/y" 502 100).2 =
        [{ level := Level.error, module := "REQUEST",
           message := "Erro " ++ toString 502 ++ ": " ++ ("GET" ++ " " ++ "/y"),
           ms := jsRound 100, status := none }] :=
  ⟨by norm_num [slowThresholdMs], by norm_num,
   (completion_log_levels trackInit "GET" "/y" 502 100).2.1
     (by norm_num [slowThresholdMs]) (by norm_num)⟩

/-- A run of succeeding listeners is fully notified and nothing is thrown. -/
theorem emitRun_all_ok (ls : List (LogEntry → Bool)) (e : LogEntry)
    (h : ∀ f ∈ ls, f e = true) : emitRun ls e = (ls.length, false) := by
  induction ls with
  | nil => rfl
  | cons f rest ih =>
    have hf : f e = true := h f (List.mem_cons_self f rest)
    have hr : ∀ g ∈ rest, g e = true := fun g hg => h g (List.mem_cons_of_mem f hg)
    simp [emitRun, hf, ih hr]

/-- A throwing listener stops the notification loop: everything before it (and
the thrower itself) is invoked, the rest is not, and emit throws. -/
theorem emitRun_fail (pre post : List (LogEntry → Bool)) (f : LogEntry → Bool)
    (e : LogEntry) (hpre : ∀ g ∈ pre, g e = true) (hf : f e = false) :
    emitRun (pre ++ f :: post) e = (pre.length + 1, true) := by
  induction pre with
  | nil => simp [emitRun, hf]
  | cons g rest ih =>
    have hg : g e = true := hpre g (List.mem_cons_self g rest)
    have hr : ∀ g' ∈ rest, g' e = true := fun g' hg' =>
      hpre g' (List.mem_cons_of_mem g hg')
    simp [emitRun, hg, ih hr]

/-- The claim fails as stated on the code: with a first listener that throws,
_write throws back to its caller and the second listener is never notified
(only 1 of the 2 listeners is invoked). -/
theorem record_listener_isolation_cex :
    (loggerWrite 2000 [fun _ => false, fun _ => true] initLogger
        (wreq 1 Level.info)).2.2.2 = true
    ∧ (loggerWrite 2000 [fun _ => false, fun _ => true] initLogger
        (wreq 1 Level.info)).2.2.1 = 1 := ⟨rfl, rfl⟩

/-- C2 (amended): the buffer and countsByLevel are updated before notification,
so they end in the same state whatever the listeners do; but a throwing
listener makes _write throw back to its caller (Node's EventEmitter does not
isolate it) and prevents the listeners registered after it from being
notified, while all listeners before it, and the thrower, are invoked. -/
theorem record_listener_failure (maxLines : Nat) (st : LoggerState) (r : WriteReq)
    (pre post : List (LogEntry → Bool)) (f : LogEntry → Bool)
    (hpre : ∀ g ∈ pre, g r.entry = true) (hf : f r.entry = false) :
    (∀ listeners : List (LogEntry → Bool),
        (loggerWrite maxLines listeners st r).1 = recordStep maxLines st r)
    ∧ (loggerWrite maxLines (pre ++ f :: post) st r).2.2.2 = true
    ∧ (loggerWrite maxLines (pre ++ f :: post) st r).2.2.1 = pre.length + 1 := by
  refine ⟨fun listeners => rfl, ?_, ?_⟩
  · show (emitRun (pre ++ f :: post) r.entry).2 = true
    rw [emitRun_fail pre post f r.entry hpre hf]
  · show (emitRun (pre ++ f :: post) r.entry).1 = pre.length + 1
    rw [emitRun_fail pre post f r.entry hpre hf]

/-- Witness for record_listener_failure: one succeeding listener, then a
throwing one, then another; state intact, throw propagates, two invoked. -/
theorem record_listener_failure_witness :
    (∀ g ∈ [fun _ : LogEntry => true], g (wreq 2 Level.info).entry = true)
    ∧ (fun _ : LogEntry => false) (wreq 2 Level.info).entry = false
    ∧ (loggerWrite 2000 ([fun _ : LogEntry => true] ++
        (fun _ : LogEntry => false) :: [fun _ : LogEntry => true]) initLogger
        (wreq 2 Level.info)).2.2.2 = true
    ∧ (loggerWrite 2000 ([fun _ : LogEntry => true] ++
        (fun _ : LogEntry => false) :: [fun _ : LogEntry => true]) initLogger
        (wreq 2 Level.info)).2.2.1 = [fun _ : LogEntry => true].length + 1 :=
  ⟨by simp, rfl,
   (record_listener_failure 2000 initLogger (wreq 2 Level.info)
      [fun _ => true] [fun _ => true] (fun _ => false) (by simp) rfl).2.1,
   (record_listener_failure 2000 initLogger (wreq 2 Level.info)
      [fun _ => true] [fun _ => true] (fun _ => false) (by simp) rfl).2.2⟩

/-- The broadcast delivers to exactly the clients whose write succeeds, and
those same clients survive in the set. -/
theorem sseBroadcast_eq_filter (clients : List SSEClient) :
    sseBroadcast clients =
      (clients.filter (fun c => c.writeOk), clients.filter (fun c => c.writeOk)) := by
  induction clients with
  | nil => rfl
  | cons c rest ih =>
    cases hc : c.writeOk <;> simp [sseBroadcast, ih, List.filter_cons, hc]

/-- C9: if one subscribed client's sink throws on write, that client is removed
from the active set (and receives nothing), while every other client with a
healthy sink still receives the same entry and stays subscribed. -/
theorem fanout_isolation (clients : List SSEClient) (x : SSEClient)
    (_hx : x ∈ clients) (hfail : x.writeOk = false) :
    x ∉ (sseBroadcast clients).1
    ∧ x ∉ (sseBroadcast clients).2
    ∧ (∀ y ∈ clients, y.writeOk = true →
        y ∈ (sseBroadcast clients).1 ∧ y ∈ (sseBroadcast clients).2) := by
  rw [sseBroadcast_eq_filter]
  refine ⟨?_, ?_, ?_⟩
  · intro hmem
    have h := (List.mem_filter.mp hmem).2
    rw [hfail] at h
    exact Bool.false_ne_true h
  · intro hmem
    have h := (List.mem_filter.mp hmem).2
    rw [hfail] at h
    exact Bool.false_ne_true h
  · intro y hy hok
    exact ⟨List.mem_filter.mpr ⟨hy, hok⟩, List.mem_filter.mpr ⟨hy, hok⟩⟩

/-- Witness for fanout_isolation: client 0 throws, client 1 still receives. -/
theorem fanout_isolation_witness :
    (⟨0, false⟩ : SSEClient) ∈ [(⟨0, false⟩ : SSEClient), ⟨1, true⟩]
    ∧ (⟨0, false⟩ : SSEClient).writeOk = false
    ∧ (⟨0, false⟩ : SSEClient) ∉
        (sseBroadcast [(⟨0, false⟩ : SSEClient), ⟨1, true⟩]).2
    ∧ ((⟨1, true⟩ : SSEClient) ∈
        (sseBroadcast [(⟨0, false⟩ : SSEClient), ⟨1, true⟩]).1
      ∧ (⟨1, true⟩ : SSEClient) ∈
        (sseBroadcast [(⟨0, false⟩ : SSEClient), ⟨1, true⟩]).2) :=
  ⟨by decide, rfl,
   (fanout_isolation [⟨0, false⟩, ⟨1, true⟩] ⟨0, false⟩ (by decide) rfl).2.1,
   (fanout_isolation [⟨0, false⟩, ⟨1, true⟩] ⟨0, false⟩ (by decide) rfl).2.2
     ⟨1, true⟩ (by decide) rfl⟩

/-- C8: a newly subscribing streaming client is first sent the connection
acknowledgement, then a replay of the most recent min(50, bufferSize) buffered
entries in oldest-first (buffer) order, and only then is it added to the
active-subscriber set. -/
theorem stream_subscribe_replay (st : LoggerState) :
    streamSubscribe st =
      StreamEvent.ack ::
        ((st.buffer.drop (st.buffer.length - 50)).map StreamEvent.replayEntry ++
          [StreamEvent.addClient])
    ∧ (st.buffer.drop (st.buffer.length - 50)).length = min 50 st.buffer.length := by
  constructor
  · unfold streamSubscribe
    rw [getLogs_none_none, List.reverse_reverse,
      jsSliceNeg_pos st.buffer 50 (by norm_num)]
    have h50 : (50 : Int).toNat = 50 := rfl
    rw [h50]
  · rw [List.length_drop]
    omega

/-- The rounding of Math.round is off by at most one half. -/
theorem jsRound_sub_le (q : ℚ) : |(jsRound q : ℚ) - q| ≤ 1/2 := by
  unfold jsRound
  rw [abs_sub_le_iff]
  constructor
  · have h := Int.floor_le (q + 1/2)
    linarith
  · have h := Int.lt_floor_add_one (q + 1/2)
    linarith

/-- The rolling average of one completion step in terms of the previous state. -/
theorem recordCompletion_avg (st : TrackerStats) (method path : String)
    (status : Nat) (elapsed : ℚ) :
    (recordCompletion st method path status elapsed).1.avgLatencyMs =
      jsRound (((st.avgLatencyMs : ℚ) * (st.total : ℚ) + elapsed) /
        (((st.total + 1 : ℕ)) : ℚ)) := rfl

/-- Accumulated-error invariant of the rolling average: after any run, the
stored average times the count is within count-squared of the true sum. -/
theorem trackRun_avg_invariant (reqs : List CompletionReq) :
    ∀ (st : TrackerStats) (s : ℚ),
      |(st.avgLatencyMs : ℚ) * (st.total : ℚ) - s| ≤ ((st.total : ℚ)) ^ 2 →
      (trackRun st reqs).total = st.total + reqs.length
      ∧ |((trackRun st reqs).avgLatencyMs : ℚ) * (((trackRun st reqs).total : ℕ) : ℚ) -
          (s + (reqs.map (fun r => r.elapsed)).sum)| ≤
          ((((trackRun st reqs).total : ℕ)) : ℚ) ^ 2 := by
  induction reqs with
  | nil =>
    intro st s h
    constructor
    · simp [trackRun]
    · simpa [trackRun] using h
  | cons r rest ih =>
    intro st s h
    have htot1 : (recordCompletion st r.method r.path r.status r.elapsed).1.total =
        st.total + 1 := rfl
    have hstep : |(((recordCompletion st r.method r.path r.status r.elapsed).1.avgLatencyMs : ℚ)) *
        (((recordCompletion st r.method r.path r.status r.elapsed).1.total : ℕ) : ℚ) -
        (s + r.elapsed)| ≤
        ((((recordCompletion st r.method r.path r.status r.elapsed).1.total : ℕ)) : ℚ) ^ 2 := by
      rw [recordCompletion_avg, htot1]
      set n : ℚ := (st.total : ℚ) with hn
      have hn0 : (0 : ℚ) ≤ n := by positivity
      have hcast : (((st.total + 1 : ℕ)) : ℚ) = n + 1 := by push_cast; ring
      rw [hcast]
      set a : ℚ := (st.avgLatencyMs : ℚ)
      set x : ℚ := r.elapsed
      set y : ℚ := (a * n + x) / (n + 1) with hy
      have hn1 : (0 : ℚ) < n + 1 := by linarith
      have hymul : y * (n + 1) = a * n + x := div_mul_cancel₀ _ (ne_of_gt hn1)
      have hr := jsRound_sub_le y
      have hsplit : (jsRound y : ℚ) * (n + 1) - (s + x) =
          ((jsRound y : ℚ) - y) * (n + 1) + (a * n - s) := by
        rw [sub_mul, hymul]
        ring
      rw [hsplit]
      calc |((jsRound y : ℚ) - y) * (n + 1) + (a * n - s)|
          ≤ |((jsRound y : ℚ) - y) * (n + 1)| + |a * n - s| := abs_add _ _
        _ = |(jsRound y : ℚ) - y| * (n + 1) + |a * n - s| := by
            rw [abs_mul, abs_of_pos hn1]
        _ ≤ (1/2) * (n + 1) + n ^ 2 := by
            have h1 : |(jsRound y : ℚ) - y| * (n + 1) ≤ (1/2) * (n + 1) :=
              mul_le_mul_of_nonneg_right hr (le_of_lt hn1)
            linarith [h]
        _ ≤ (n + 1) ^ 2 := by nlinarith
    have hrec := ih (recordCompletion st r.method r.path r.status r.elapsed).1
      (s + r.elapsed) hstep
    have hrun : trackRun st (r :: rest) =
        trackRun (recordCompletion st r.method r.path r.status r.elapsed).1 rest := rfl
    constructor
    · rw [hrun, hrec.1, htot1, List.length_cons]
      omega
    · rw [hrun]
      have hsum : (s + r.elapsed) + (rest.map (fun r => r.elapsed)).sum =
          s + ((r :: rest).map (fun r => r.elapsed)).sum := by
        rw [List.map_cons, List.sum_cons]
        ring
      rw [← hsum]
      exact hrec.2

/-- C3: the reported avgLatencyMs obeys the incremental recurrence
newAvg = round((oldAvg * (total - 1) + elapsedMs) / total) at every step, and
after any run of completions the stored average differs from the directly
computed arithmetic mean of all elapsed values by at most 1ms per step. -/
theorem running_mean_recurrence_and_bound :
    (∀ (st : TrackerStats) (method path : String) (status : Nat) (elapsed : ℚ),
      (recordCompletion st method path status elapsed).1.avgLatencyMs =
        jsRound (((st.avgLatencyMs : ℚ) * ((((st.total + 1 : ℕ)) : ℚ) - 1) + elapsed) /
          (((st.total + 1 : ℕ)) : ℚ)))
    ∧ (∀ reqs : List CompletionReq,
      |((trackRun trackInit reqs).avgLatencyMs : ℚ) -
          (reqs.map (fun r => r.elapsed)).sum / ((reqs.length : ℕ) : ℚ)|
        ≤ ((reqs.length : ℕ) : ℚ)) := by
  constructor
  · intro st method path status elapsed
    have hc : ((((st.total + 1 : ℕ)) : ℚ) - 1) = (st.total : ℚ) := by
      push_cast
      ring
    rw [hc]
    exact recordCompletion_avg st method path status elapsed
  · intro reqs
    have hbase : |(trackInit.avgLatencyMs : ℚ) * (trackInit.total : ℚ) - 0| ≤
        ((trackInit.total : ℚ)) ^ 2 := by
      simp [trackInit]
    obtain ⟨htot, hbound⟩ := trackRun_avg_invariant reqs trackInit 0 hbase
    have htot0 : trackInit.total = 0 := rfl
    rw [htot0, Nat.zero_add] at htot
    rw [zero_add] at hbound
    rcases Nat.eq_zero_or_pos reqs.length with hz | hpos
    · have hreqs : reqs = [] := List.length_eq_zero.mp hz
      subst hreqs
      simp [trackRun, trackInit]
    · have hn : (0 : ℚ) < ((reqs.length : ℕ) : ℚ) := by
        exact_mod_cast hpos
      rw [htot] at hbound
      have heq : ((trackRun trackInit reqs).avgLatencyMs : ℚ) -
          (reqs.map (fun r => r.elapsed)).sum / ((reqs.length : ℕ) : ℚ) =
          (((trackRun trackInit reqs).avgLatencyMs : ℚ) * ((reqs.length : ℕ) : ℚ) -
            (reqs.map (fun r => r.elapsed)).sum) / ((reqs.length : ℕ) : ℚ) := by
        field_simp
      rw [heq, abs_div, abs_of_pos hn, div_le_iff₀ hn]
      rw [sq] at hbound
      exact hbound

/-- Inserting into the comparator order commutes with filtering on an exact
count: an element is never carried past one with an equal count, so each
equal-count class keeps its original order. -/
theorem orderedInsert_filter_count (a : String × RouteStats)
    (l : List (String × RouteStats)) (c : Nat) :
    (l.orderedInsert countGE a).filter (fun p => p.2.count == c) =
      ((a :: l).filter (fun p => p.2.count == c)) := by
  induction l with
  | nil => rfl
  | cons y ys ih =>
    by_cases hr : countGE a y
    · simp [List.orderedInsert, if_pos hr]
    · have hlt : a.2.count < y.2.count := by
        unfold countGE at hr
        omega
      cases hpa : (a.2.count == c) <;> cases hpy : (y.2.count == c)
      · simp [List.orderedInsert, if_neg hr, List.filter_cons, hpa, hpy, ih]
      · simp [List.orderedInsert, if_neg hr, List.filter_cons, hpa, hpy, ih]
      · simp [List.orderedInsert, if_neg hr, List.filter_cons, hpa, hpy, ih]
      · exfalso
        have ha : a.2.count = c := by simpa using hpa
        have hy : y.2.count = c := by simpa using hpy
        omega

/-- Stability of the getStats sort: for every count value, the elements with
that count appear in the sorted list in their original byRoute order. -/
theorem insertionSort_filter_count (l : List (String × RouteStats)) (c : Nat) :
    (l.insertionSort countGE).filter (fun p => p.2.count == c) =
      l.filter (fun p => p.2.count == c) := by
  induction l with
  | nil => rfl
  | cons a ys ih =>
    rw [List.insertionSort, orderedInsert_filter_count]
    simp only [List.filter_cons, ih]

/-- C7: topRoutes reports at most 10 routes, sorted by descending count with
ties kept in byRoute insertion order (the sort is stable: every equal-count
class keeps its original order and the sorted list is a permutation of
byRoute), every reported route carries the count, errors and
avgMs = round(totalMs / count) of a byRoute entry, and the selected routes
dominate the unselected ones by count. -/
theorem top_routes_spec (br : List (String × RouteStats)) :
    (topRoutes br).length = min 10 br.length
    ∧ (topRoutes br).Pairwise (fun a b => b.count ≤ a.count)
    ∧ (∀ t ∈ topRoutes br, ∃ p, p ∈ br ∧ t.route = p.1 ∧ t.count = p.2.count
        ∧ t.errors = p.2.errors
        ∧ t.avgMs = jsRound (p.2.totalMs / ((p.2.count : ℕ) : ℚ)))
    ∧ (∀ a ∈ (br.insertionSort countGE).take 10,
        ∀ b ∈ (br.insertionSort countGE).drop 10, b.2.count ≤ a.2.count)
    ∧ (br.insertionSort countGE).Perm br
    ∧ (∀ c : Nat, (br.insertionSort countGE).filter (fun p => p.2.count == c) =
        br.filter (fun p => p.2.count == c)) := by
  have hperm : (br.insertionSort countGE).Perm br := List.perm_insertionSort countGE br
  have hsorted : List.Sorted countGE (br.insertionSort countGE) :=
    List.sorted_insertionSort countGE br
  refine ⟨?_, ?_, ?_, ?_, hperm, insertionSort_filter_count br⟩
  · unfold topRoutes
    rw [List.length_map, List.length_take, hperm.length_eq]
  · unfold topRoutes
    refine List.pairwise_map.mpr ?_
    have htake : List.Pairwise countGE ((br.insertionSort countGE).take 10) :=
      hsorted.sublist (List.take_sublist 10 (br.insertionSort countGE))
    exact htake.imp (fun h => h)
  · intro t ht
    unfold topRoutes at ht
    rw [List.mem_map] at ht
    obtain ⟨p, hp, hpt⟩ := ht
    have hpmem : p ∈ br.insertionSort countGE := List.mem_of_mem_take hp
    refine ⟨p, hperm.mem_iff.mp hpmem, ?_, ?_, ?_, ?_⟩ <;> rw [← hpt]
  · intro a ha b hb
    have hp : List.Pairwise countGE
        ((br.insertionSort countGE).take 10 ++ (br.insertionSort countGE).drop 10) := by
      rw [List.take_append_drop]
      exact hsorted
    exact (List.pairwise_append.mp hp).2.2 a ha b hb

/-- A concrete byRoute list for the witness. -/
def brEx : List (String × RouteStats) :=
  [("GET /a", { count := 1, totalMs := 10, errors := 0 }),
   ("GET /b", { count := 2, totalMs := 30, errors := 1 })]

/-- Witness for top_routes_spec: two routes produce two top routes. -/
theorem top_routes_spec_witness : (topRoutes brEx).length = 2 := by
  have h := (top_routes_spec brEx).1
  simpa [brEx] using h
